import Mathlib

/-!
Verification of the Kate-Neo native document engine
(`src/packages/kate-native/src/document_wrapper.cpp`) against its
natural-language specification.

The buffer is embedded as a list of lines, each line a list of characters.
Qt / KTextEditor primitives used by the wrapper (QString::indexOf,
QChar::isLetterOrNumber, QChar::isSpace, KTextEditor::Document::line,
KTextEditor::Document::replaceText) are modelled by their documented
behaviour; every loop of the C++ source is translated into a fuel-based
structural recursion whose fuel provably suffices, so that all definitions
compute inside the kernel.
-/

namespace KateNeo

/-- A text buffer: a finite sequence of lines, each a list of characters
(lines never contain a newline character). -/
abbrev Buffer := List (List Char)

/-- Case folding used by the literal search: Qt's `Qt::CaseInsensitive`
comparison is modelled by comparing lower-cased characters; with
`cs = true` characters are compared as they are. -/
def foldCase (cs : Bool) (c : Char) : Char :=
  if cs then c else c.toLower

/-- `QChar::isLetterOrNumber`, modelled for the ASCII range by
`Char.isAlphanum`. -/
def isWordChar (c : Char) : Bool := c.isAlphanum

/-- The pattern `pat` occurs in line `s` at position `p` (under the given
case sensitivity): `p + pat.length ≤ s.length` and the characters agree
after case folding.  This is the occurrence predicate realised by
`QString::indexOf`. -/
def occursAt (cs : Bool) (pat s : List Char) (p : Nat) : Bool :=
  decide (p + pat.length ≤ s.length) &&
    ((s.drop p).take pat.length).map (foldCase cs) == pat.map (foldCase cs)

/-- Fuel-based scan for the first occurrence of `pat` in `s` at a position
`≥ start`: models `QString::indexOf(pat, start, cs)`.  One unit of fuel is
spent per candidate position; the wrapper `indexOfFrom` supplies enough
fuel to reach the end of the line. -/
def indexOfGo (cs : Bool) (pat s : List Char) : Nat → Nat → Option Nat
  | 0, _ => none
  | fuel + 1, start =>
    if occursAt cs pat s start then some start
    else if start < s.length then indexOfGo cs pat s fuel (start + 1)
    else none

/-- `QString::indexOf(pat, start, cs)`: index of the first occurrence of
`pat` at a position `≥ start`, or `none`. -/
def indexOfFrom (cs : Bool) (pat s : List Char) (start : Nat) : Option Nat :=
  indexOfGo cs pat s (s.length + 1 - start) start

/-- The whole-word acceptance test of `DocumentWrapper::Search`
(document_wrapper.cpp lines 558-566): the character before the candidate
(if any) and the character after it (if any) must not be alphanumeric. -/
def wordBoundaryOk (pat s : List Char) (p : Nat) : Bool :=
  (p == 0 || !(isWordChar (s.getD (p - 1) ' '))) &&
  (decide (s.length ≤ p + pat.length) || !(isWordChar (s.getD (p + pat.length) ' ')))

/-- The literal-search scan loop of `DocumentWrapper::Search`
(document_wrapper.cpp lines 551-576) over one line: repeatedly find the
next occurrence at `≥ start`; a candidate failing the whole-word test is
skipped; in either case the scan resumes at `pos + 1`.  Fuel-based; one
unit of fuel per loop iteration. -/
def searchGo (cs ww : Bool) (pat s : List Char) : Nat → Nat → List Nat
  | 0, _ => []
  | fuel + 1, start =>
    match indexOfFrom cs pat s start with
    | none => []
    | some pos =>
      if ww && !wordBoundaryOk pat s pos then
        searchGo cs ww pat s fuel (pos + 1)
      else
        pos :: searchGo cs ww pat s fuel (pos + 1)

/-- All literal-search match columns of one line, in scan order. -/
def searchLine (cs ww : Bool) (pat s : List Char) : List Nat :=
  searchGo cs ww pat s (s.length + 1) 0

/-- A search result, as built by `DocumentWrapper::Search`: line, column,
length and matched text (the source stores the pattern itself as the
matched text of a literal match). -/
structure SearchMatch where
  line : Nat
  column : Nat
  length : Nat
  text : List Char
deriving DecidableEq

/-- Literal (non-regex) search over the whole buffer: the outer
line loop of `DocumentWrapper::Search` (document_wrapper.cpp line 533). -/
def searchLiteral (cs ww : Bool) (pat : List Char) (buf : Buffer) : List SearchMatch :=
  (List.range buf.length).flatMap fun line =>
    (searchLine cs ww pat (buf.getD line [])).map fun pos =>
      ⟨line, pos, pat.length, pat⟩

/-- Strict document order on search matches: line-major, then
column-ascending. -/
def docLt (m m' : SearchMatch) : Prop :=
  m.line < m'.line ∨ (m.line = m'.line ∧ m.column < m'.column)

/- ### Replacement primitives -/

/-- `KTextEditor::Document::replaceText` restricted to a single-line range
`(line, col) .. (line, col + len)` and a replacement holding no newline:
succeeds exactly when the range lies inside the document, replacing the
spanned characters; on failure the buffer is unchanged.  Returns the
success flag together with the new buffer. -/
def replaceTextBuf (buf : Buffer) (line col len : Nat) (repl : List Char) :
    Bool × Buffer :=
  match buf[line]? with
  | some l =>
    if col + len ≤ l.length then
      (true, buf.set line (l.take col ++ repl ++ l.drop (col + len)))
    else (false, buf)
  | none => (false, buf)

/- ### The host-binding value model -/

/-- A field of a JavaScript options object, as inspected by the wrappers:
absent, a boolean, or present with a non-boolean value. -/
inductive NField where
  | absent
  | boolField (b : Bool)
  | nonBool
deriving DecidableEq

/-- `options.Has(f) && options.Get(f).IsBoolean()` followed by reading the
boolean, defaulting to `false`: the option-field parse of
`DocumentWrapper::Search` / `DocumentWrapper::ReplaceAll`. -/
def NField.toBool : NField → Bool
  | .boolField b => b
  | _ => false

/-- A JavaScript value handed to a wrapper method: a string, a number,
a boolean, or an options object carrying the three recognised fields. -/
inductive NValue where
  | vstr (s : String)
  | vnum (n : Int)
  | vbool (b : Bool)
  | vobj (caseSensitive wholeWords regex : NField)
deriving DecidableEq

/-- Parsed search options. -/
structure SearchOptions where
  caseSensitive : Bool
  wholeWords : Bool
  regex : Bool
deriving DecidableEq

/-- Option parsing of `DocumentWrapper::Search` (document_wrapper.cpp
lines 506-524): options are read from the given argument position only
when that argument exists and is an object; otherwise every option keeps
its default `false`. -/
def parseSearchOptions : Option NValue → SearchOptions
  | some (.vobj cs ww rx) => ⟨cs.toBool, ww.toBool, rx.toBool⟩
  | _ => ⟨false, false, false⟩

/-- Outcome of a wrapper call: a value, or a synchronously thrown
JavaScript error with its message. -/
inductive NapiResult (α : Type) where
  | ok (val : α)
  | err (msg : String)
deriving DecidableEq

/-- The state of one wrapped document: its buffer, the modified flag, the
content-type mode, and the file url. -/
structure DocState where
  lines : Buffer
  modified : Bool
  mode : String
  url : String
deriving DecidableEq

/-- The whole text of the document: lines joined by newline, as
`KTextEditor::Document::text()` returns it. -/
def docText (buf : Buffer) : List Char :=
  (buf.intersperse ['\n']).flatten

/-- `KTextEditor::Document::line(n)`: the line's content for a valid
index, the empty string otherwise (modelled KTextEditor behaviour: an
invalid line index yields an empty `QString`, not an error). -/
def ktLine (buf : Buffer) (n : Int) : List Char :=
  if 0 ≤ n ∧ n < buf.length then buf.getD n.toNat [] else []

section Wrappers

/- The regular-expression engine (`QRegularExpression::globalMatch`),
treated as an opaque external capability: given the case-sensitivity
flag, the pattern and a line, it yields the `(start, length)` spans and
captured texts of all matches.  No claim exercises the regex branch, so
everything below is proved for an arbitrary engine. -/
variable (rx : Bool → List Char → List Char → List ((Nat × Nat) × List Char))

/-- The regex branch of `DocumentWrapper::Search` (document_wrapper.cpp
lines 536-548). -/
def searchRegex (cs : Bool) (pat : List Char) (buf : Buffer) : List SearchMatch :=
  (List.range buf.length).flatMap fun line =>
    (rx cs pat (buf.getD line [])).map fun m =>
      ⟨line, m.1.1, m.1.2, m.2⟩

/-- `DocumentWrapper::Search` (document_wrapper.cpp lines 489-584):
requires an available document and a string first argument, parses the
options from the SECOND argument position, then searches every line. -/
def SearchCall (d : Option DocState) (args : List NValue) :
    NapiResult (List SearchMatch) :=
  match d with
  | none => .err "Document not initialized"
  | some st =>
    match args.get? 0 with
    | some (.vstr pat) =>
      let opts := parseSearchOptions (args.get? 1)
      .ok (if opts.regex then searchRegex rx opts.caseSensitive pat.toList st.lines
           else searchLiteral opts.caseSensitive opts.wholeWords pat.toList st.lines)
    | _ => .err "First argument must be a search string"

/-- `DocumentWrapper::ReplaceAll` (document_wrapper.cpp lines 615-671):
parses its own options from the THIRD argument (never used afterwards),
then forwards its ENTIRE argument list to `Search` — so `Search` parses
its options from the second argument, which here holds the replacement
string — and finally applies the found matches from the last to the
first, counting the successful `replaceText` calls. -/
def ReplaceAllCall (d : Option DocState) (args : List NValue) :
    NapiResult (Nat × DocState) :=
  match d with
  | none => .err "Document not initialized"
  | some st =>
    match args.get? 0, args.get? 1 with
    | some (.vstr _pat), some (.vstr repl) =>
      let _opts := parseSearchOptions (args.get? 2)
      match SearchCall rx d args with
      | .ok results =>
        let r := results.reverse.foldl
          (fun (acc : Nat × Buffer) m =>
            let step := replaceTextBuf acc.2 m.line m.column m.length repl.toList
            (if step.1 then acc.1 + 1 else acc.1, step.2))
          (0, st.lines)
        .ok (r.1, { st with lines := r.2 })
      | .err e => .err e
    | _, _ => .err "Arguments: searchText, replacementText"

end Wrappers

/- ### Tokenizer (`DocumentWrapper::GetSyntaxTokens`) -/

/-- The inner attribute-run loop of `GetSyntaxTokens`
(document_wrapper.cpp lines 416-420): starting from `e = col + 1`, keep
extending while `e < len`, the run is shorter than 1000 columns, and the
attribute at `e` equals the attribute at `col`.  Fuel-based; one unit of
fuel per extension step. -/
def runGo {α : Type} [DecidableEq α] (attr : Nat → Option α) (len col : Nat) :
    Nat → Nat → Nat
  | 0, e => e
  | fuel + 1, e =>
    if e < len ∧ e - col < 1000 ∧ attr e = attr col then
      runGo attr len col fuel (e + 1)
    else e

/-- End column of the token starting at `col` (the final `endCol`). -/
def runEnd {α : Type} [DecidableEq α] (attr : Nat → Option α) (len col : Nat) : Nat :=
  runGo attr len col (len - (col + 1)) (col + 1)

/-- The outer column loop of `GetSyntaxTokens` over one line
(document_wrapper.cpp lines 408-434): emits `(startCol, endCol)` spans
until the scanned length is exhausted. -/
def tokGo {α : Type} [DecidableEq α] (attr : Nat → Option α) (len : Nat) :
    Nat → Nat → List (Nat × Nat)
  | 0, _ => []
  | fuel + 1, col =>
    if col < len then
      (col, runEnd attr len col) :: tokGo attr len fuel (runEnd attr len col)
    else []

/-- All `(startCol, endCol)` spans of one line of length `len` (already
clamped to the scan bound). -/
def tokenizeLine {α : Type} [DecidableEq α] (attr : Nat → Option α) (len : Nat) :
    List (Nat × Nat) :=
  tokGo attr len len 0

/-- A syntax token as produced by `GetSyntaxTokens`. -/
structure Token where
  line : Nat
  startColumn : Nat
  endColumn : Nat
  tokenType : String
deriving DecidableEq

/-- Token type: the attribute's name, or `"text"` when no attribute
applies (document_wrapper.cpp line 429). -/
def attrName {α : Type} (name : α → String) : Option α → String
  | some a => name a
  | none => "text"

/-- The tokens of one line: the per-line body of `GetSyntaxTokens`; the
scan length is the line length clamped to `MAX_SCAN_LENGTH = 10000`. -/
def lineTokens {α : Type} [DecidableEq α] (doc : Buffer)
    (attrAt : Nat → Nat → Option α) (name : α → String) (line : Nat) : List Token :=
  (tokenizeLine (attrAt line) (min (doc.getD line []).length 10000)).map fun ab =>
    ⟨line, ab.1, ab.2, attrName name (attrAt line ab.1)⟩

/-- `DocumentWrapper::GetSyntaxTokens` (document_wrapper.cpp lines
379-442): scans the lines `lineStart ≤ line ≤ lineEnd`, `line <
lineCount`, in increasing order. -/
def getSyntaxTokens {α : Type} [DecidableEq α] (doc : Buffer)
    (attrAt : Nat → Nat → Option α) (name : α → String)
    (lineStart lineEnd : Nat) : List Token :=
  (List.range' lineStart (min (lineEnd + 1) doc.length - lineStart)).flatMap fun line =>
    lineTokens doc attrAt name line

/-- `spans` tiles the interval `[start, stop)`: the first span starts at
`start`, each span is non-empty and starts where the previous one ended,
and the last span ends at `stop`. -/
def tilesFrom (start stop : Nat) : List (Nat × Nat) → Bool
  | [] => start == stop
  | ab :: rest => (ab.1 == start) && decide (ab.1 < ab.2) && tilesFrom ab.2 stop rest

/-- Line-major, column-ascending, non-overlapping order on tokens. -/
def tokOrd (t u : Token) : Prop :=
  t.line < u.line ∨ (t.line = u.line ∧ t.endColumn ≤ u.startColumn)

/- ### Fold scanner (`DocumentWrapper::GetFoldingRegions`) -/

/-- A folding region as produced by `GetFoldingRegions`. -/
structure FoldRegion where
  startLine : Nat
  endLine : Nat
  kind : String
deriving DecidableEq

/-- `DocumentWrapper::GetFoldingRegions` (document_wrapper.cpp lines
444-485): scans the lines `[0, min(lineCount, 50000))`; for each visible
line queries the engine's fold-region lookup at column 0 (`foldAt line 0 =
some (s, e)` models a valid returned range with start line `s` and end
line `e`; `none` models an invalid one) and emits a region only when the
returned start line equals the scanned line.  The kind is always the
literal `"region"`. -/
def foldRegionOfLine (visible : Nat → Bool) (foldAt : Nat → Nat → Option (Nat × Nat))
    (line : Nat) : Option FoldRegion :=
  if visible line then
    match foldAt line 0 with
    | some r => if r.1 == line then some ⟨r.1, r.2, "region"⟩ else none
    | none => none
  else none

def getFoldingRegions (visible : Nat → Bool) (foldAt : Nat → Nat → Option (Nat × Nat))
    (lineCount : Nat) : List FoldRegion :=
  (List.range (min lineCount 50000)).filterMap (foldRegionOfLine visible foldAt)

/- ### Indentation (`GetIndentation` / `SetIndentation`) -/

/-- The counting loop of `DocumentWrapper::GetIndentation`
(document_wrapper.cpp lines 698-706): a space counts 1, a tab counts 4,
the first other character stops the count. -/
def countIndent : List Char → Nat
  | [] => 0
  | c :: rest =>
    if c = ' ' then 1 + countIndent rest
    else if c = '\t' then 4 + countIndent rest
    else 0

/-- `DocumentWrapper::GetIndentation` (document_wrapper.cpp lines
675-712) after argument checks: returns 0 for an out-of-range line. -/
def GetIndentation (buf : Buffer) (line : Int) : Nat :=
  if line < 0 ∨ (buf.length : Int) ≤ line then 0
  else countIndent (buf.getD line.toNat [])

/-- Index of the first non-whitespace character, or `none`: the
`textStart`-searching loop of `DocumentWrapper::SetIndentation`
(document_wrapper.cpp lines 738-744), with `QChar::isSpace` modelled by
`Char.isWhitespace`. -/
def firstNonWs : List Char → Option Nat
  | [] => none
  | c :: rest =>
    if c.isWhitespace then (firstNonWs rest).map (· + 1) else some 0

/-- The `textStart` value actually used by the source: it stays `0` when
the loop never finds a non-whitespace character. -/
def textStart (l : List Char) : Nat :=
  (firstNonWs l).getD 0

/-- `DocumentWrapper::SetIndentation` (document_wrapper.cpp lines
714-754) after argument checks: silently no-ops on an out-of-range line;
otherwise replaces the whole line with `spaces` literal spaces followed
by the line content from `textStart` on (a negative `spaces` yields an
empty indent, as `QString(spaces, ' ')` does). -/
def SetIndentation (buf : Buffer) (line spaces : Int) : Buffer :=
  if line < 0 ∨ (buf.length : Int) ≤ line then buf
  else
    let l := buf.getD line.toNat []
    let newText := List.replicate spaces.toNat ' ' ++ l.drop (textStart l)
    (replaceTextBuf buf line.toNat 0 l.length newText).2

/- ### Host-binding wrappers (null-document and argument checks)

Each wrapper mirrors one `DocumentWrapper` method, including the order of
its argument-shape check and its `m_document` availability check.
Operations whose in-document effect is carried out by KTextEditor itself
(setText, insertText, removeText, setMode, openUrl, save, undo, redo and
the structural indent) take that effect as an opaque parameter; the
wrappers only reproduce the dispatch that the C++ glue performs. -/

section DocWrappers

variable (rx : Bool → List Char → List Char → List ((Nat × Nat) × List Char))
variable (availableModes : List String)
variable (setTextImpl : DocState → String → DocState)
variable (insertImpl : DocState → List NValue → DocState)
variable (removeImpl : DocState → List NValue → DocState)
variable (setModeImpl : DocState → String → DocState)
variable (openImpl : DocState → String → Bool × DocState)
variable (saveImpl : DocState → Bool × DocState)
variable (undoImpl : DocState → DocState)
variable (redoImpl : DocState → DocState)
variable (indentImpl : DocState → Int → Int → DocState)
variable (attrAt : Nat → Nat → Option String)
variable (visible : Nat → Bool)
variable (foldAt : Nat → Nat → Option (Nat × Nat))

/-- `DocumentWrapper::GetText` (document_wrapper.cpp lines 106-120). -/
def GetTextCall (d : Option DocState) : NapiResult String :=
  match d with
  | none => .err "Document not initialized"
  | some st => .ok (String.mk (docText st.lines))

/-- `DocumentWrapper::SetText` (lines 122-139): argument check first,
then the document check. -/
def SetTextCall (d : Option DocState) (args : List NValue) : NapiResult DocState :=
  match args.get? 0 with
  | some (.vstr s) =>
    match d with
    | none => .err "Document not initialized"
    | some st => .ok (setTextImpl st s)
  | _ => .err "String expected"

/-- `DocumentWrapper::GetLine` (lines 141-161): argument check, document
check, then `KTextEditor::Document::line` — which yields an empty string
for an out-of-range index instead of failing. -/
def GetLineCall (d : Option DocState) (args : List NValue) : NapiResult String :=
  match args.get? 0 with
  | some (.vnum n) =>
    match d with
    | none => .err "Document not initialized"
    | some st => .ok (String.mk (ktLine st.lines n))
  | _ => .err "Number expected"

/-- `DocumentWrapper::InsertText` (lines 163-184): only the argument
count is checked. -/
def InsertTextCall (d : Option DocState) (args : List NValue) : NapiResult DocState :=
  if args.length < 3 then .err "Expected (line, column, text)"
  else
    match d with
    | none => .err "Document not initialized"
    | some st => .ok (insertImpl st args)

/-- `DocumentWrapper::RemoveText` (lines 186-214). -/
def RemoveTextCall (d : Option DocState) (args : List NValue) : NapiResult DocState :=
  if args.length < 4 then .err "Expected (startLine, startColumn, endLine, endColumn)"
  else
    match d with
    | none => .err "Document not initialized"
    | some st => .ok (removeImpl st args)

/-- `DocumentWrapper::GetLineCount` (lines 216-228): a missing document
yields the number 0, not an error. -/
def GetLineCountCall (d : Option DocState) : NapiResult Nat :=
  match d with
  | none => .ok 0
  | some st => .ok st.lines.length

/-- `DocumentWrapper::GetLength` (lines 230-242): a missing document
yields 0, not an error. -/
def GetLengthCall (d : Option DocState) : NapiResult Nat :=
  match d with
  | none => .ok 0
  | some st => .ok (docText st.lines).length

/-- `DocumentWrapper::IsModified` (lines 244-256): a missing document
yields `false`, not an error. -/
def IsModifiedCall (d : Option DocState) : NapiResult Bool :=
  match d with
  | none => .ok false
  | some st => .ok st.modified

/-- `DocumentWrapper::GetMode` (lines 258-271): a missing document yields
the empty string, not an error. -/
def GetModeCall (d : Option DocState) : NapiResult String :=
  match d with
  | none => .ok ""
  | some st => .ok st.mode

/-- `DocumentWrapper::SetMode` (lines 273-290). -/
def SetModeCall (d : Option DocState) (args : List NValue) : NapiResult DocState :=
  match args.get? 0 with
  | some (.vstr s) =>
    match d with
    | none => .err "Document not initialized"
    | some st => .ok (setModeImpl st s)
  | _ => .err "String expected"

/-- `DocumentWrapper::GetModes` (lines 292-308): a missing document
yields an empty array, not an error. -/
def GetModesCall (d : Option DocState) : NapiResult (List String) :=
  match d with
  | none => .ok []
  | some _ => .ok availableModes

/-- `DocumentWrapper::OpenUrl` (lines 310-330). -/
def OpenUrlCall (d : Option DocState) (args : List NValue) :
    NapiResult (Bool × DocState) :=
  match args.get? 0 with
  | some (.vstr s) =>
    match d with
    | none => .err "Document not initialized"
    | some st => .ok (openImpl st s)
  | _ => .err "String expected"

/-- `DocumentWrapper::SaveUrl` (lines 332-346). -/
def SaveUrlCall (d : Option DocState) : NapiResult (Bool × DocState) :=
  match d with
  | none => .err "Document not initialized"
  | some st => .ok (saveImpl st)

/-- `DocumentWrapper::GetUrl` (lines 348-361): a missing document yields
the empty string, not an error. -/
def GetUrlCall (d : Option DocState) : NapiResult String :=
  match d with
  | none => .ok ""
  | some st => .ok st.url

/-- `DocumentWrapper::Undo` (lines 363-369): a missing document is a
silent no-op, no error is raised. -/
def UndoCall (d : Option DocState) : Option DocState :=
  match d with
  | none => none
  | some st => some (undoImpl st)

/-- `DocumentWrapper::Redo` (lines 371-377): a missing document is a
silent no-op. -/
def RedoCall (d : Option DocState) : Option DocState :=
  match d with
  | none => none
  | some st => some (redoImpl st)

/-- `DocumentWrapper::GetSyntaxTokens` (lines 379-442): document check
first, then the two numeric arguments. -/
def GetSyntaxTokensCall (d : Option DocState) (args : List NValue) :
    NapiResult (List Token) :=
  match d with
  | none => .err "Document not initialized"
  | some st =>
    match args.get? 0, args.get? 1 with
    | some (.vnum ls), some (.vnum le) =>
      .ok (getSyntaxTokens st.lines attrAt id ls.toNat le.toNat)
    | _, _ => .err "Expected lineStart and lineEnd as numbers"

/-- `DocumentWrapper::GetFoldingRegions` (lines 444-485). -/
def GetFoldingRegionsCall (d : Option DocState) : NapiResult (List FoldRegion) :=
  match d with
  | none => .err "Document not initialized"
  | some st => .ok (getFoldingRegions visible foldAt st.lines.length)

/-- `KTextEditor::Document::replaceText` on a possibly negative
coordinate triple: a range with a negative coordinate is invalid, so the
call fails without touching the buffer. -/
def replaceTextInt (buf : Buffer) (line col len : Int) (repl : List Char) :
    Bool × Buffer :=
  if line < 0 ∨ col < 0 ∨ len < 0 then (false, buf)
  else replaceTextBuf buf line.toNat col.toNat len.toNat repl

/-- `DocumentWrapper::Replace` (lines 586-613): document check first,
then the four arguments. -/
def ReplaceCall (d : Option DocState) (args : List NValue) :
    NapiResult (Bool × DocState) :=
  match d with
  | none => .err "Document not initialized"
  | some st =>
    match args.get? 0, args.get? 1, args.get? 2, args.get? 3 with
    | some (.vnum line), some (.vnum col), some (.vnum len), some (.vstr repl) =>
      let r := replaceTextInt st.lines line col len repl.toList
      .ok (r.1, { st with lines := r.2 })
    | _, _, _, _ => .err "Arguments: line, column, length, replacement"

/-- `DocumentWrapper::GetIndentation` (lines 675-712): document check
first, then the numeric argument, then the lenient core. -/
def GetIndentationCall (d : Option DocState) (args : List NValue) : NapiResult Nat :=
  match d with
  | none => .err "Document not initialized"
  | some st =>
    match args.get? 0 with
    | some (.vnum line) => .ok (GetIndentation st.lines line)
    | _ => .err "Line number required"

/-- `DocumentWrapper::SetIndentation` (lines 714-754): document check
first, then the two numeric arguments, then the lenient core. -/
def SetIndentationCall (d : Option DocState) (args : List NValue) : NapiResult DocState :=
  match d with
  | none => .err "Document not initialized"
  | some st =>
    match args.get? 0, args.get? 1 with
    | some (.vnum line), some (.vnum spaces) =>
      .ok { st with lines := SetIndentation st.lines line spaces }
    | _, _ => .err "Arguments: line, spaces"

/-- `DocumentWrapper::IndentLine` (lines 756-780): document check, one
numeric argument, silent no-op on an out-of-range line, else the engine's
structural indent. -/
def IndentLineCall (d : Option DocState) (args : List NValue) : NapiResult DocState :=
  match d with
  | none => .err "Document not initialized"
  | some st =>
    match args.get? 0 with
    | some (.vnum line) =>
      if line < 0 ∨ (st.lines.length : Int) ≤ line then .ok st
      else .ok (indentImpl st line line)
    | _ => .err "Line number required"

/-- `DocumentWrapper::IndentLines` (lines 782-807): document check, two
numeric arguments, silent no-op on a bad range, else the engine's
structural indent over the range. -/
def IndentLinesCall (d : Option DocState) (args : List NValue) : NapiResult DocState :=
  match d with
  | none => .err "Document not initialized"
  | some st =>
    match args.get? 0, args.get? 1 with
    | some (.vnum s), some (.vnum e) =>
      if s < 0 ∨ (st.lines.length : Int) ≤ e ∨ e < s then .ok st
      else .ok (indentImpl st s e)
    | _, _ => .err "Arguments: startLine, endLine"

end DocWrappers

/-- C6: `replaceAll` never forwards its parsed options to the internal
search: for ANY two third arguments (any option objects, or anything
else) the result — count and final document — is identical, because the
internal `Search` call reads its options from the second argument
position, which holds the replacement string, so it always runs with the
default options (case-insensitive, not whole-words, not regex). -/

/- ### Theorems -/

/- ### Lemmas about the occurrence scan -/

theorem occursAt_false_of_length_lt {cs : Bool} {pat s : List Char} {q : Nat}
    (h : s.length < q) : occursAt cs pat s q = false := by
  unfold occursAt
  have : ¬ (q + pat.length ≤ s.length) := by omega
  simp [this]

theorem indexOfGo_some {cs : Bool} {pat s : List Char} {fuel start p : Nat}
    (h : indexOfGo cs pat s fuel start = some p) :
    start ≤ p ∧ occursAt cs pat s p = true ∧
      ∀ q, start ≤ q → q < p → occursAt cs pat s q = false := by
  induction fuel generalizing start with
  | zero => simp [indexOfGo] at h
  | succ fuel ih =>
    unfold indexOfGo at h
    by_cases hst : occursAt cs pat s start = true
    · simp [hst] at h
      subst h
      exact ⟨Nat.le_refl _, hst, fun q hq hq' => absurd (Nat.lt_of_le_of_lt hq hq') (Nat.lt_irrefl _)⟩
    · simp [hst] at h
      by_cases hlen : start < s.length
      · simp [hlen] at h
        obtain ⟨h1, h2, h3⟩ := ih h
        refine ⟨by omega, h2, fun q hq hq' => ?_⟩
        rcases Nat.eq_or_lt_of_le hq with rfl | hq
        · simpa using hst
        · exact h3 q hq hq'
      · simp [hlen] at h

theorem indexOfGo_none {cs : Bool} {pat s : List Char} {fuel start : Nat}
    (hf : s.length + 1 ≤ start + fuel)
    (h : indexOfGo cs pat s fuel start = none) :
    ∀ q, start ≤ q → occursAt cs pat s q = false := by
  induction fuel generalizing start with
  | zero =>
    intro q hq
    exact occursAt_false_of_length_lt (by omega)
  | succ fuel ih =>
    unfold indexOfGo at h
    by_cases hst : occursAt cs pat s start = true
    · simp [hst] at h
    · by_cases hlen : start < s.length
      · simp [hst, hlen] at h
        intro q hq
        rcases Nat.eq_or_lt_of_le hq with rfl | hq
        · simpa using hst
        · exact ih (by omega) h q hq
      · intro q hq
        rcases Nat.eq_or_lt_of_le hq with rfl | hq
        · simpa using hst
        · exact occursAt_false_of_length_lt (by omega)

theorem indexOfFrom_some {cs : Bool} {pat s : List Char} {start p : Nat}
    (h : indexOfFrom cs pat s start = some p) :
    start ≤ p ∧ occursAt cs pat s p = true ∧
      ∀ q, start ≤ q → q < p → occursAt cs pat s q = false :=
  indexOfGo_some h

theorem indexOfFrom_none {cs : Bool} {pat s : List Char} {start : Nat}
    (h : indexOfFrom cs pat s start = none) :
    ∀ q, start ≤ q → occursAt cs pat s q = false := by
  by_cases hs : start ≤ s.length + 1
  · exact indexOfGo_none (by omega) h
  · intro q hq
    exact occursAt_false_of_length_lt (by omega)

theorem occursAt_le_length {cs : Bool} {pat s : List Char} {p : Nat}
    (h : occursAt cs pat s p = true) : p ≤ s.length := by
  by_contra hc
  rw [occursAt_false_of_length_lt (by omega)] at h
  exact Bool.false_ne_true h

/- ### Membership characterization of the literal search -/

theorem searchGo_mem {cs ww : Bool} {pat s : List Char} {fuel start p : Nat}
    (hf : s.length + 1 ≤ start + fuel) :
    p ∈ searchGo cs ww pat s fuel start ↔
      start ≤ p ∧ occursAt cs pat s p = true ∧
        (ww = true → wordBoundaryOk pat s p = true) := by
  induction fuel generalizing start with
  | zero =>
    simp only [searchGo, List.not_mem_nil, false_iff]
    rintro ⟨h1, h2, -⟩
    have hlen := occursAt_le_length h2
    omega
  | succ fuel ih =>
    unfold searchGo
    cases hidx : indexOfFrom cs pat s start with
    | none =>
      simp only [List.not_mem_nil, false_iff]
      rintro ⟨h1, h2, -⟩
      rw [indexOfFrom_none hidx p h1] at h2
      exact Bool.false_ne_true h2
    | some pos =>
      obtain ⟨hsp, hocc, hmin⟩ := indexOfFrom_some hidx
      have hposlen : pos ≤ s.length := occursAt_le_length hocc
      have hf' : s.length + 1 ≤ (pos + 1) + fuel := by omega
      by_cases hww : (ww && !wordBoundaryOk pat s pos) = true
      · simp only [hww, if_true]
        rw [ih hf']
        constructor
        · rintro ⟨h1, h2, h3⟩
          exact ⟨by omega, h2, h3⟩
        · rintro ⟨h1, h2, h3⟩
          rcases Nat.lt_or_ge p (pos + 1) with hlt | hge
          · rcases Nat.lt_or_ge p pos with hlt' | hge'
            · rw [hmin p h1 hlt'] at h2
              exact absurd h2 (Bool.false_ne_true)
            · have : p = pos := by omega
              subst this
              simp only [Bool.and_eq_true, Bool.not_eq_true'] at hww
              rw [h3 hww.1] at hww
              exact absurd hww.2 (by simp)
          · exact ⟨hge, h2, h3⟩
      · simp only [if_neg hww]
        simp only [List.mem_cons]
        rw [ih hf']
        constructor
        · rintro (rfl | ⟨h1, h2, h3⟩)
          · refine ⟨hsp, hocc, fun hw => ?_⟩
            simp only [Bool.and_eq_true, Bool.not_eq_true'] at hww
            rcases Bool.eq_false_or_eq_true (wordBoundaryOk pat s p) with hb | hb
            · exact hb
            · exact absurd ⟨hw, hb⟩ hww
          · exact ⟨by omega, h2, h3⟩
        · rintro ⟨h1, h2, h3⟩
          rcases Nat.lt_or_ge p (pos + 1) with hlt | hge
          · rcases Nat.lt_or_ge p pos with hlt' | hge'
            · rw [hmin p h1 hlt'] at h2
              exact absurd h2 (Bool.false_ne_true)
            · left
              omega
          · right
            exact ⟨hge, h2, h3⟩

theorem searchLine_mem {cs ww : Bool} {pat s : List Char} {p : Nat} :
    p ∈ searchLine cs ww pat s ↔
      occursAt cs pat s p = true ∧
        (ww = true → wordBoundaryOk pat s p = true) := by
  unfold searchLine
  rw [searchGo_mem (by omega)]
  simp

/- ### The matches of one line are strictly ascending -/

theorem searchGo_ge {cs ww : Bool} {pat s : List Char} {fuel start p : Nat}
    (h : p ∈ searchGo cs ww pat s fuel start) : start ≤ p := by
  induction fuel generalizing start with
  | zero => simp [searchGo] at h
  | succ fuel ih =>
    unfold searchGo at h
    cases hidx : indexOfFrom cs pat s start with
    | none => simp [hidx] at h
    | some pos =>
      obtain ⟨hsp, -, -⟩ := indexOfFrom_some hidx
      rw [hidx] at h
      by_cases hww : (ww && !wordBoundaryOk pat s pos) = true
      · simp only [hww, if_true] at h
        have := ih h
        omega
      · simp only [if_neg hww] at h
        simp only [List.mem_cons] at h
        rcases h with h | h
        · omega
        · have := ih h
          omega

theorem searchGo_sorted (cs ww : Bool) (pat s : List Char) (fuel start : Nat) :
    (searchGo cs ww pat s fuel start).Pairwise (· < ·) := by
  induction fuel generalizing start with
  | zero => simp [searchGo]
  | succ fuel ih =>
    unfold searchGo
    cases hidx : indexOfFrom cs pat s start with
    | none => simp
    | some pos =>
      by_cases hww : (ww && !wordBoundaryOk pat s pos) = true
      · simp only [hww, if_true]
        exact ih (pos + 1)
      · simp only [if_neg hww]
        exact List.Pairwise.cons (fun q hq => by have := searchGo_ge hq; omega) (ih (pos + 1))

theorem searchLine_sorted (cs ww : Bool) (pat s : List Char) :
    (searchLine cs ww pat s).Pairwise (· < ·) :=
  searchGo_sorted cs ww pat s (s.length + 1) 0

/- ### Buffer-level search -/

theorem pairwise_flatMap_of {α β : Type} {R : β → β → Prop} (f : α → List β) (l : List α)
    (h1 : ∀ a ∈ l, (f a).Pairwise R)
    (h2 : l.Pairwise (fun a a' => ∀ b ∈ f a, ∀ b' ∈ f a', R b b')) :
    (l.flatMap f).Pairwise R := by
  induction l with
  | nil => simp
  | cons a l ih =>
    rw [List.flatMap_cons, List.pairwise_append]
    refine ⟨h1 a (List.mem_cons_self a l), ih (fun x hx => h1 x (List.mem_cons_of_mem a hx))
      (List.Pairwise.of_cons h2), fun b hb b' hb' => ?_⟩
    rw [List.mem_flatMap] at hb'
    obtain ⟨a', ha', hb'⟩ := hb'
    exact (List.rel_of_pairwise_cons h2 ha') b hb b' hb'

theorem searchLiteral_mem {cs ww : Bool} {pat : List Char} {buf : Buffer} {m : SearchMatch} :
    m ∈ searchLiteral cs ww pat buf ↔
      m.line < buf.length ∧ m.length = pat.length ∧ m.text = pat ∧
        m.column ∈ searchLine cs ww pat (buf.getD m.line []) := by
  unfold searchLiteral
  rw [List.mem_flatMap]
  constructor
  · rintro ⟨line, hline, hm⟩
    rw [List.mem_map] at hm
    obtain ⟨pos, hpos, rfl⟩ := hm
    rw [List.mem_range] at hline
    exact ⟨hline, rfl, rfl, hpos⟩
  · rintro ⟨h1, h2, h3, h4⟩
    refine ⟨m.line, List.mem_range.mpr h1, ?_⟩
    rw [List.mem_map]
    exact ⟨m.column, h4, by cases m; simp_all⟩

theorem searchLiteral_sorted (cs ww : Bool) (pat : List Char) (buf : Buffer) :
    (searchLiteral cs ww pat buf).Pairwise docLt := by
  unfold searchLiteral
  apply pairwise_flatMap_of
  · intro line hline
    exact (searchLine_sorted cs ww pat (buf.getD line [])).map _
      (fun a b hab => Or.inr ⟨rfl, hab⟩)
  · have hr : (List.range buf.length).Pairwise (· < ·) := List.pairwise_lt_range _
    refine hr.imp ?_
    rintro a a' haa' b hb b' hb'
    rw [List.mem_map] at hb hb'
    obtain ⟨pos, -, rfl⟩ := hb
    obtain ⟨pos', -, rfl⟩ := hb'
    exact Or.inl haa'

theorem replaceTextBuf_preserves {buf : Buffer} {line col len : Nat} {repl : List Char}
    (h : (replaceTextBuf buf line col len repl).1 = true) :
    (∀ j, j < line → (replaceTextBuf buf line col len repl).2.getD j [] = buf.getD j []) ∧
      ((replaceTextBuf buf line col len repl).2.getD line []).take col =
        (buf.getD line []).take col := by
  cases hl : buf[line]? with
  | none => simp [replaceTextBuf, hl] at h
  | some l =>
    by_cases hc : col + len ≤ l.length
    · have hline : line < buf.length := by
        by_contra hcon
        rw [List.getElem?_eq_none (by omega)] at hl
        exact Option.noConfusion hl
      have hgetl : buf.getD line [] = l := by
        simp [List.getD, hl]
      simp only [replaceTextBuf, hl, hc, if_true]
      constructor
      · intro j hj
        simp [List.getD, List.getElem?_set_ne (by omega : line ≠ j)]
      · rw [hgetl]
        have hset : (buf.set line (l.take col ++ repl ++ l.drop (col + len))).getD line [] =
            l.take col ++ repl ++ l.drop (col + len) := by
          simp [List.getD, List.getElem?_set_eq_of_lt, hline]
        rw [hset, List.append_assoc]
        rw [List.take_append_of_le_length (by rw [List.length_take]; omega)]
        rw [List.take_take]
        simp
    · simp [replaceTextBuf, hl, hc] at h

/- ### Tokenizer lemmas -/

theorem runGo_ge {α : Type} [DecidableEq α] (attr : Nat → Option α) (len col : Nat) :
    ∀ fuel e, e ≤ runGo attr len col fuel e := by
  intro fuel
  induction fuel with
  | zero => intro e; simp [runGo]
  | succ fuel ih =>
    intro e
    unfold runGo
    by_cases hc : e < len ∧ e - col < 1000 ∧ attr e = attr col
    · rw [if_pos hc]
      have := ih (e + 1)
      omega
    · rw [if_neg hc]

theorem runGo_le {α : Type} [DecidableEq α] (attr : Nat → Option α) (len col : Nat) :
    ∀ fuel e, e ≤ len → runGo attr len col fuel e ≤ len := by
  intro fuel
  induction fuel with
  | zero => intro e he; simpa [runGo] using he
  | succ fuel ih =>
    intro e he
    unfold runGo
    by_cases hc : e < len ∧ e - col < 1000 ∧ attr e = attr col
    · rw [if_pos hc]
      exact ih (e + 1) (by omega)
    · rw [if_neg hc]
      exact he

theorem runGo_runLen {α : Type} [DecidableEq α] (attr : Nat → Option α) (len col : Nat) :
    ∀ fuel e, e - col ≤ 1000 → runGo attr len col fuel e - col ≤ 1000 := by
  intro fuel
  induction fuel with
  | zero => intro e he; simpa [runGo] using he
  | succ fuel ih =>
    intro e he
    unfold runGo
    by_cases hc : e < len ∧ e - col < 1000 ∧ attr e = attr col
    · rw [if_pos hc]
      exact ih (e + 1) (by omega)
    · rw [if_neg hc]
      exact he

theorem runEnd_gt {α : Type} [DecidableEq α] (attr : Nat → Option α) (len col : Nat) :
    col < runEnd attr len col := by
  unfold runEnd
  have := runGo_ge attr len col (len - (col + 1)) (col + 1)
  omega

theorem runEnd_le {α : Type} [DecidableEq α] (attr : Nat → Option α) {len col : Nat}
    (h : col < len) : runEnd attr len col ≤ len :=
  runGo_le attr len col _ (col + 1) (by omega)

theorem runEnd_runLen {α : Type} [DecidableEq α] (attr : Nat → Option α) (len col : Nat) :
    runEnd attr len col - col ≤ 1000 :=
  runGo_runLen attr len col _ (col + 1) (by omega)

theorem tokGo_tiles {α : Type} [DecidableEq α] (attr : Nat → Option α) (len : Nat) :
    ∀ fuel col, len ≤ fuel + col → col ≤ len →
      tilesFrom col len (tokGo attr len fuel col) = true := by
  intro fuel
  induction fuel with
  | zero =>
    intro col h1 h2
    have : col = len := by omega
    simp [tokGo, tilesFrom, this]
  | succ fuel ih =>
    intro col h1 h2
    unfold tokGo
    by_cases hc : col < len
    · rw [if_pos hc]
      have hgt := runEnd_gt attr len col
      have hle := runEnd_le attr hc
      unfold tilesFrom
      simp only [beq_self_eq_true, Bool.true_and]
      rw [Bool.and_eq_true, decide_eq_true_eq]
      exact ⟨hgt, ih (runEnd attr len col) (by omega) hle⟩
    · rw [if_neg hc]
      have : col = len := by omega
      simp [tilesFrom, this]

theorem tokenizeLine_tiles {α : Type} [DecidableEq α] (attr : Nat → Option α) (len : Nat) :
    tilesFrom 0 len (tokenizeLine attr len) = true :=
  tokGo_tiles attr len len 0 (by omega) (by omega)

theorem tokGo_spans {α : Type} [DecidableEq α] (attr : Nat → Option α) (len : Nat) :
    ∀ fuel col ab, ab ∈ tokGo attr len fuel col →
      ab.1 < ab.2 ∧ ab.2 - ab.1 ≤ 1000 := by
  intro fuel
  induction fuel with
  | zero => intro col ab h; simp [tokGo] at h
  | succ fuel ih =>
    intro col ab h
    unfold tokGo at h
    by_cases hc : col < len
    · rw [if_pos hc] at h
      rcases List.mem_cons.mp h with rfl | h
      · exact ⟨runEnd_gt attr len col, runEnd_runLen attr len col⟩
      · exact ih _ ab h
    · rw [if_neg hc] at h
      simp at h

theorem tilesFrom_ge {l : List (Nat × Nat)} :
    ∀ start stop, tilesFrom start stop l = true → ∀ ab ∈ l, start ≤ ab.1 := by
  induction l with
  | nil => intro start stop h ab hab; simp at hab
  | cons cd rest ih =>
    intro start stop h ab hab
    unfold tilesFrom at h
    rw [Bool.and_eq_true, Bool.and_eq_true, beq_iff_eq, decide_eq_true_eq] at h
    obtain ⟨⟨h1, h2⟩, h3⟩ := h
    rcases List.mem_cons.mp hab with rfl | hab
    · omega
    · have := ih cd.2 stop h3 ab hab
      omega

theorem tilesFrom_pairwise {l : List (Nat × Nat)} :
    ∀ start stop, tilesFrom start stop l = true →
      l.Pairwise (fun x y => x.2 ≤ y.1) := by
  induction l with
  | nil => intro start stop h; simp
  | cons cd rest ih =>
    intro start stop h
    unfold tilesFrom at h
    rw [Bool.and_eq_true, Bool.and_eq_true, beq_iff_eq, decide_eq_true_eq] at h
    obtain ⟨⟨h1, h2⟩, h3⟩ := h
    exact List.Pairwise.cons (fun y hy => tilesFrom_ge cd.2 stop h3 y hy) (ih cd.2 stop h3)

theorem lineTokens_line {α : Type} [DecidableEq α] {doc : Buffer}
    {attrAt : Nat → Nat → Option α} {name : α → String} {line : Nat} {t : Token}
    (h : t ∈ lineTokens doc attrAt name line) : t.line = line := by
  unfold lineTokens at h
  rw [List.mem_map] at h
  obtain ⟨ab, -, rfl⟩ := h
  rfl

theorem getSyntaxTokens_pairwise {α : Type} [DecidableEq α] (doc : Buffer)
    (attrAt : Nat → Nat → Option α) (name : α → String) (lineStart lineEnd : Nat) :
    (getSyntaxTokens doc attrAt name lineStart lineEnd).Pairwise tokOrd := by
  unfold getSyntaxTokens
  apply pairwise_flatMap_of
  · intro line hline
    unfold lineTokens
    exact (tilesFrom_pairwise 0 _ (tokenizeLine_tiles _ _)).map _
      (fun a b hab => Or.inr ⟨rfl, hab⟩)
  · have hr : (List.range' lineStart (min (lineEnd + 1) doc.length - lineStart)).Pairwise
        (· < ·) := List.pairwise_lt_range' _ _
    refine hr.imp ?_
    intro a a' haa' b hb b' hb'
    unfold tokOrd
    rw [lineTokens_line hb, lineTokens_line hb']
    exact Or.inl haa'

theorem getSyntaxTokens_spans {α : Type} [DecidableEq α] {doc : Buffer}
    {attrAt : Nat → Nat → Option α} {name : α → String} {lineStart lineEnd : Nat}
    {t : Token} (h : t ∈ getSyntaxTokens doc attrAt name lineStart lineEnd) :
    t.startColumn < t.endColumn ∧ t.endColumn - t.startColumn ≤ 1000 := by
  unfold getSyntaxTokens at h
  rw [List.mem_flatMap] at h
  obtain ⟨line, -, ht⟩ := h
  unfold lineTokens at ht
  rw [List.mem_map] at ht
  obtain ⟨ab, hab, rfl⟩ := ht
  exact tokGo_spans _ _ _ _ ab hab

theorem filter_flatMap_comm {α β : Type} (l : List α) (f : α → List β) (p : β → Bool) :
    (l.flatMap f).filter p = l.flatMap fun a => (f a).filter p := by
  induction l with
  | nil => simp
  | cons a l ih => simp [List.flatMap_cons, List.filter_append, ih]

theorem flatMap_eq_nil_of_forall {α β : Type} {l : List α} {g : α → List β}
    (h : ∀ x ∈ l, g x = []) : l.flatMap g = [] := by
  induction l with
  | nil => simp
  | cons a l ih =>
    rw [List.flatMap_cons, h a (List.mem_cons_self a l), List.nil_append]
    exact ih fun x hx => h x (List.mem_cons_of_mem a hx)

theorem flatMap_eq_of_single {α β : Type} [DecidableEq α] {l : List α} {a : α}
    {g : α → List β} (hmem : a ∈ l) (hnd : l.Nodup)
    (hz : ∀ x ∈ l, x ≠ a → g x = []) : l.flatMap g = g a := by
  induction l with
  | nil => simp at hmem
  | cons x l ih =>
    rw [List.flatMap_cons]
    by_cases hxa : x = a
    · have hrest : l.flatMap g = [] := by
        apply flatMap_eq_nil_of_forall
        intro y hy
        apply hz y (List.mem_cons_of_mem x hy)
        intro hya
        apply (List.nodup_cons.mp hnd).1
        rw [hxa, ← hya]
        exact hy
      rw [hrest, List.append_nil, hxa]
    · have hx : g x = [] := hz x (List.mem_cons_self x l) hxa
      have hmem' : a ∈ l := by
        rcases List.mem_cons.mp hmem with h | h
        · exact absurd h.symm hxa
        · exact h
      rw [hx, List.nil_append]
      exact ih hmem' (List.nodup_cons.mp hnd).2 fun y hy =>
        hz y (List.mem_cons_of_mem x hy)

theorem getSyntaxTokens_filter_line {α : Type} [DecidableEq α] (doc : Buffer)
    (attrAt : Nat → Nat → Option α) (name : α → String) {lineStart lineEnd l : Nat}
    (h1 : lineStart ≤ l) (h2 : l ≤ lineEnd) (h3 : l < doc.length) :
    (getSyntaxTokens doc attrAt name lineStart lineEnd).filter (fun t => t.line == l) =
      lineTokens doc attrAt name l := by
  unfold getSyntaxTokens
  rw [filter_flatMap_comm]
  have hmem : l ∈ List.range' lineStart (min (lineEnd + 1) doc.length - lineStart) := by
    rw [List.mem_range'_1]
    omega
  rw [flatMap_eq_of_single hmem (List.nodup_range' _ _) ?_]
  · apply List.filter_eq_self.mpr
    intro t ht
    rw [beq_iff_eq]
    exact lineTokens_line ht
  · intro x hx hxl
    apply List.filter_eq_nil_iff.mpr
    intro t ht
    rw [beq_iff_eq, lineTokens_line ht]
    exact hxl

/- ### Fold-scanner lemmas -/

theorem pairwise_filterMap_of {α β : Type} {R : α → α → Prop} {S : β → β → Prop}
    (f : α → Option β)
    (h : ∀ a a' b b', R a a' → f a = some b → f a' = some b' → S b b') :
    ∀ {l : List α}, l.Pairwise R → (l.filterMap f).Pairwise S := by
  intro l hl
  induction l with
  | nil => simp
  | cons a l ih =>
    rw [List.filterMap_cons]
    rcases hl with - | ⟨hrel, hpair⟩
    cases hf : f a with
    | none => exact ih hpair
    | some b =>
      refine List.Pairwise.cons ?_ (ih hpair)
      intro b' hb'
      rw [List.mem_filterMap] at hb'
      obtain ⟨a', ha', hfa'⟩ := hb'
      exact h a a' b b' (hrel a' ha') hf hfa'

theorem foldRegionOfLine_startLine {visible : Nat → Bool}
    {foldAt : Nat → Nat → Option (Nat × Nat)} {line : Nat} {reg : FoldRegion}
    (h : foldRegionOfLine visible foldAt line = some reg) : reg.startLine = line := by
  unfold foldRegionOfLine at h
  by_cases hv : visible line = true
  · rw [if_pos hv] at h
    cases hf : foldAt line 0 with
    | none => rw [hf] at h; exact Option.noConfusion h
    | some r =>
      rw [hf] at h
      by_cases hr : (r.1 == line) = true
      · simp only [hr, if_true] at h
        rw [← Option.some_inj.mp h]
        exact beq_iff_eq.mp hr
      · simp only [if_neg hr] at h
        exact Option.noConfusion h
  · rw [if_neg hv] at h
    exact Option.noConfusion h

theorem foldRegionOfLine_mem {visible : Nat → Bool}
    {foldAt : Nat → Nat → Option (Nat × Nat)} {line : Nat} {reg : FoldRegion} :
    foldRegionOfLine visible foldAt line = some reg ↔
      visible line = true ∧
        ∃ e, foldAt line 0 = some (line, e) ∧ reg = ⟨line, e, "region"⟩ := by
  unfold foldRegionOfLine
  by_cases hv : visible line = true
  · rw [if_pos hv]
    cases hf : foldAt line 0 with
    | none =>
      simp only [hv, true_and]
      constructor
      · intro h; exact Option.noConfusion h
      · rintro ⟨e, he, -⟩; exact Option.noConfusion he
    | some r =>
      by_cases hr : (r.1 == line) = true
      · simp only [hr, if_true]
        have hr' : r.1 = line := beq_iff_eq.mp hr
        simp only [hv, true_and, Option.some_inj]
        constructor
        · intro h
          refine ⟨r.2, ?_, ?_⟩
          · rw [← hr']
          · rw [← h, ← hr']
        · rintro ⟨e, he, rfl⟩
          rw [he]
      · simp only [if_neg hr]
        simp only [hv, true_and]
        constructor
        · intro h; exact Option.noConfusion h
        · rintro ⟨e, he, -⟩
          have hre : r = (line, e) := Option.some_inj.mp he
          rw [hre] at hr
          simp at hr
  · rw [if_neg hv]
    constructor
    · intro h; exact Option.noConfusion h
    · rintro ⟨h, -⟩
      exact absurd h hv

theorem getFoldingRegions_mem {visible : Nat → Bool}
    {foldAt : Nat → Nat → Option (Nat × Nat)} {lineCount : Nat} {reg : FoldRegion} :
    reg ∈ getFoldingRegions visible foldAt lineCount ↔
      ∃ line, line < min lineCount 50000 ∧ visible line = true ∧
        ∃ e, foldAt line 0 = some (line, e) ∧ reg = ⟨line, e, "region"⟩ := by
  unfold getFoldingRegions
  rw [List.mem_filterMap]
  constructor
  · rintro ⟨line, hline, hsome⟩
    rw [List.mem_range] at hline
    obtain ⟨hv, e, he, hreg⟩ := foldRegionOfLine_mem.mp hsome
    exact ⟨line, hline, hv, e, he, hreg⟩
  · rintro ⟨line, hline, hv, e, he, hreg⟩
    exact ⟨line, List.mem_range.mpr hline, foldRegionOfLine_mem.mpr ⟨hv, e, he, hreg⟩⟩

/- ### Indentation lemmas -/

theorem countIndent_cons_space (l : List Char) :
    countIndent (' ' :: l) = 1 + countIndent l := rfl

theorem countIndent_cons_tab (l : List Char) :
    countIndent ('\t' :: l) = 4 + countIndent l := rfl

theorem countIndent_decompose {ind rest : List Char}
    (hind : ∀ c ∈ ind, c = ' ' ∨ c = '\t')
    (hrest : ∀ c, rest.head? = some c → c ≠ ' ' ∧ c ≠ '\t') :
    countIndent (ind ++ rest) = ind.count ' ' + 4 * ind.count '\t' := by
  induction ind with
  | nil =>
    simp only [List.nil_append, List.count_nil]
    cases rest with
    | nil => simp [countIndent]
    | cons c cs =>
      have hc := hrest c rfl
      simp [countIndent, hc.1, hc.2]
  | cons c ind ih =>
    have hc := hind c (List.mem_cons_self c ind)
    have hrec := ih (fun d hd => hind d (List.mem_cons_of_mem c hd))
    have e1 : (if ((' ' : Char) == ' ') = true then 1 else 0) = 1 := by decide
    have e2 : (if (((' ' : Char) == '\t') = true) then 1 else 0) = 0 := by decide
    have e3 : (if (('\t' : Char) == ' ') = true then 1 else 0) = 0 := by decide
    have e4 : (if (('\t' : Char) == '\t') = true then 1 else 0) = 1 := by decide
    rcases hc with rfl | rfl
    · rw [List.cons_append, countIndent_cons_space, hrec]
      simp only [List.count_cons, e1, e2, e3, e4]
      omega
    · rw [List.cons_append, countIndent_cons_tab, hrec]
      simp only [List.count_cons, e1, e2, e3, e4]
      omega

theorem firstNonWs_decomposed {ws : List Char} :
    (∀ c ∈ ws, c.isWhitespace = true) →
    ∀ {c : Char} {rest : List Char}, c.isWhitespace = false →
      firstNonWs (ws ++ c :: rest) = some ws.length := by
  induction ws with
  | nil =>
    intro _ c rest hc
    simp [firstNonWs, hc]
  | cons w ws ih =>
    intro hws c rest hc
    have hw := hws w (List.mem_cons_self w ws)
    simp only [List.cons_append, firstNonWs, hw, if_pos, List.append_eq]
    rw [ih (fun d hd => hws d (List.mem_cons_of_mem w hd)) hc]
    simp [List.length_cons]

theorem firstNonWs_all_ws {l : List Char} :
    (∀ c ∈ l, c.isWhitespace = true) → firstNonWs l = none := by
  induction l with
  | nil => intro _; rfl
  | cons c l ih =>
    intro h
    have hc := h c (List.mem_cons_self c l)
    simp only [firstNonWs, hc, if_pos]
    rw [ih (fun d hd => h d (List.mem_cons_of_mem c hd))]
    rfl

theorem setIndentation_in_range {buf : Buffer} {line : Int} (spaces : Int)
    (h0 : 0 ≤ line) (h1 : line < (buf.length : Int)) :
    SetIndentation buf line spaces =
      buf.set line.toNat
        (List.replicate spaces.toNat ' ' ++
          (buf.getD line.toNat []).drop (textStart (buf.getD line.toNat []))) := by
  unfold SetIndentation
  rw [if_neg (by omega)]
  have hlt : line.toNat < buf.length := by omega
  have hn : buf[line.toNat]? = some buf[line.toNat] := List.getElem?_eq_getElem hlt
  have hgd : buf[line.toNat]?.getD [] = buf[line.toNat] := by
    rw [hn]
    rfl
  unfold replaceTextBuf
  rw [hn]
  simp [List.getD, hgd, List.drop_length]

/- ### Helper: whole-word test in claim form -/

theorem wordBoundaryOk_iff {pat s : List Char} {p : Nat} :
    wordBoundaryOk pat s p = true ↔
      (p = 0 ∨ (s.getD (p - 1) ' ').isAlphanum = false) ∧
        (s.length ≤ p + pat.length ∨ (s.getD (p + pat.length) ' ').isAlphanum = false) := by
  unfold wordBoundaryOk isWordChar
  rw [Bool.and_eq_true, Bool.or_eq_true, Bool.or_eq_true, beq_iff_eq,
    Bool.not_eq_true', Bool.not_eq_true', decide_eq_true_eq]

/- ### The claims -/

/-- C1: `replaceAll` first collects the full match set via `search`, then
applies the replacements in descending document order, so that applying a
later-in-document replacement never changes the (line, column) offsets of
the not-yet-applied (earlier) matches, and returns the number of
successful replacements; concretely, on the single line "aaa",
`replaceAll("a", "b", {})` returns count 3 and leaves the buffer "bbb".
Stated as: (1) the concrete example, for every regex engine; (2) the
match set produced by the search is strictly ascending in document order;
(3) a successful single replacement at `(line, col)` leaves every earlier
line and the first `col` columns of `line` unchanged, so strictly earlier
match offsets stay valid. -/
theorem claim1_replaceAll_descending :
    (∀ rx : Bool → List Char → List Char → List ((Nat × Nat) × List Char),
      ReplaceAllCall rx (some ⟨["aaa".toList], false, "", ""⟩)
        [.vstr "a", .vstr "b", .vobj .absent .absent .absent]
        = .ok (3, ⟨["bbb".toList], false, "", ""⟩))
  ∧ (∀ (cs ww : Bool) (pat : List Char) (buf : Buffer),
      (searchLiteral cs ww pat buf).Pairwise docLt)
  ∧ (∀ (buf : Buffer) (line col len : Nat) (repl : List Char),
      (replaceTextBuf buf line col len repl).1 = true →
        (∀ j, j < line →
          (replaceTextBuf buf line col len repl).2.getD j [] = buf.getD j []) ∧
        ((replaceTextBuf buf line col len repl).2.getD line []).take col =
          (buf.getD line []).take col) := by
  refine ⟨fun rx => rfl, ?_, ?_⟩
  · intro cs ww pat buf
    exact searchLiteral_sorted cs ww pat buf
  · intro buf line col len repl h
    exact replaceTextBuf_preserves h

/-- Witness for C1: a concrete successful replacement on line 1 of a
two-line buffer leaves line 0 and the first 0 columns of line 1
unchanged. -/
theorem claim1_witness :
    (replaceTextBuf ["ab".toList, "cd".toList] 1 0 1 "z".toList).2.getD 0 []
      = (["ab".toList, "cd".toList] : Buffer).getD 0 [] ∧
    ((replaceTextBuf ["ab".toList, "cd".toList] 1 0 1 "z".toList).2.getD 1 []).take 0
      = ((["ab".toList, "cd".toList] : Buffer).getD 1 []).take 0 := by
  have h := claim1_replaceAll_descending.2.2 ["ab".toList, "cd".toList] 1 0 1
    "z".toList (by decide)
  exact ⟨h.1 0 (by decide), h.2⟩

/-- C2: for every line in the requested range the emitted tokens are
contiguous, non-overlapping, with `startColumn < endColumn`, tiling
exactly `[0, min(lineLength, 10000))`; a token boundary is forced at
1000 columns (every token is at most 1000 columns wide); and the output
is ordered line-major then column-ascending. -/
theorem claim2_getSyntaxTokens_tiling {α : Type} [DecidableEq α] (doc : Buffer)
    (attrAt : Nat → Nat → Option α) (name : α → String) (lineStart lineEnd : Nat) :
    (getSyntaxTokens doc attrAt name lineStart lineEnd).Pairwise tokOrd
  ∧ (∀ t ∈ getSyntaxTokens doc attrAt name lineStart lineEnd,
      t.startColumn < t.endColumn ∧ t.endColumn - t.startColumn ≤ 1000)
  ∧ (∀ l, lineStart ≤ l → l ≤ lineEnd → l < doc.length →
      tilesFrom 0 (min (doc.getD l []).length 10000)
        (((getSyntaxTokens doc attrAt name lineStart lineEnd).filter
          (fun t => t.line == l)).map fun t => (t.startColumn, t.endColumn)) = true) := by
  refine ⟨getSyntaxTokens_pairwise doc attrAt name lineStart lineEnd,
    fun t ht => getSyntaxTokens_spans ht, ?_⟩
  intro l h1 h2 h3
  rw [getSyntaxTokens_filter_line doc attrAt name h1 h2 h3]
  unfold lineTokens
  rw [List.map_map]
  have hcomp : ((fun t : Token => (t.startColumn, t.endColumn)) ∘
      (fun ab : Nat × Nat =>
        (⟨l, ab.1, ab.2, attrName name (attrAt l ab.1)⟩ : Token))) = id := by
    funext ab
    rfl
  rw [hcomp, List.map_id]
  exact tokenizeLine_tiles _ _

/-- Witness for C2: the tokens of the single line "ab" under a constant
absent attribute tile `[0, 2)`. -/
theorem claim2_witness :
    tilesFrom 0 (min ("ab".toList : List Char).length 10000)
      (((getSyntaxTokens ["ab".toList] (fun _ _ => (none : Option Nat)) (fun _ => "") 0 0).filter
        (fun t => t.line == 0)).map fun t => (t.startColumn, t.endColumn)) = true :=
  (claim2_getSyntaxTokens_tiling ["ab".toList] (fun _ _ => (none : Option Nat))
    (fun _ => "") 0 0).2.2 0 (by decide) (by decide) (by decide)

/-- C3: for literal whole-word search, a candidate occurrence is accepted
exactly when the character before it (when one exists) and the character
after it (when one exists) are both not alphanumeric — a rejected
candidate advances only one character, so no later occurrence on the
line is missed (captured by the iff covering every occurrence); and
`search("foo", {wholeWords:true})` over the single line "foobar foo baz"
returns exactly one match, at column 7. -/
theorem claim3_search_wholeWords :
    (∀ (pat s : List Char) (p : Nat),
      p ∈ searchLine false true pat s ↔
        occursAt false pat s p = true ∧
          (p = 0 ∨ (s.getD (p - 1) ' ').isAlphanum = false) ∧
          (s.length ≤ p + pat.length ∨ (s.getD (p + pat.length) ' ').isAlphanum = false))
  ∧ searchLiteral false true "foo".toList ["foobar foo baz".toList]
      = [⟨0, 7, 3, "foo".toList⟩] := by
  constructor
  · intro pat s p
    rw [searchLine_mem, wordBoundaryOk_iff]
    constructor
    · rintro ⟨h1, h2⟩
      exact ⟨h1, (h2 rfl).1, (h2 rfl).2⟩
    · rintro ⟨h1, h2, h3⟩
      exact ⟨h1, fun _ => ⟨h2, h3⟩⟩
  · decide

/-- C4 counterexample: with no document available the query operations
return plain default values (`ok`), they do not report a
NotInitializedError — refuting the claim that every operation fails in
that state. -/
theorem claim4_counterexample :
    GetLineCountCall none = .ok 0 ∧ GetLengthCall none = .ok 0 ∧
    IsModifiedCall none = .ok false ∧ GetModeCall none = .ok "" ∧
    GetModesCall ["normal"] none = .ok [] ∧ GetUrlCall none = .ok "" :=
  ⟨rfl, rfl, rfl, rfl, rfl, rfl⟩

/-- C4 amended: with no document available, the strict operations
(getText, setText, line, insertText, removeText, setMode, openUrl,
saveUrl, getSyntaxTokens, getFoldingRegions, search, replace, replaceAll,
getIndentation, setIndentation, indentLine, indentLines) do report the
"Document not initialized" error, but the query operations lineCount,
length, isModified, mode, modes and url silently return default values
(0, 0, false, "", [], ""), and undo/redo silently no-op. -/
theorem claim4_uninitialized_behavior
    (rx : Bool → List Char → List Char → List ((Nat × Nat) × List Char))
    (availableModes : List String)
    (setTextImpl : DocState → String → DocState)
    (insertImpl removeImpl : DocState → List NValue → DocState)
    (setModeImpl : DocState → String → DocState)
    (openImpl : DocState → String → Bool × DocState)
    (saveImpl : DocState → Bool × DocState)
    (undoImpl redoImpl : DocState → DocState)
    (indentImpl : DocState → Int → Int → DocState)
    (attrAt : Nat → Nat → Option String)
    (visible : Nat → Bool)
    (foldAt : Nat → Nat → Option (Nat × Nat)) :
    GetTextCall none = .err "Document not initialized"
  ∧ SetTextCall setTextImpl none [.vstr "x"] = .err "Document not initialized"
  ∧ GetLineCall none [.vnum 0] = .err "Document not initialized"
  ∧ InsertTextCall insertImpl none [.vnum 0, .vnum 0, .vstr "x"]
      = .err "Document not initialized"
  ∧ RemoveTextCall removeImpl none [.vnum 0, .vnum 0, .vnum 0, .vnum 0]
      = .err "Document not initialized"
  ∧ SetModeCall setModeImpl none [.vstr "m"] = .err "Document not initialized"
  ∧ OpenUrlCall openImpl none [.vstr "p"] = .err "Document not initialized"
  ∧ SaveUrlCall saveImpl none = .err "Document not initialized"
  ∧ GetSyntaxTokensCall attrAt none [.vnum 0, .vnum 0]
      = .err "Document not initialized"
  ∧ GetFoldingRegionsCall visible foldAt none = .err "Document not initialized"
  ∧ SearchCall rx none [.vstr "a"] = .err "Document not initialized"
  ∧ ReplaceCall none [.vnum 0, .vnum 0, .vnum 0, .vstr "b"]
      = .err "Document not initialized"
  ∧ ReplaceAllCall rx none [.vstr "a", .vstr "b"] = .err "Document not initialized"
  ∧ GetIndentationCall none [.vnum 0] = .err "Document not initialized"
  ∧ SetIndentationCall none [.vnum 0, .vnum 0] = .err "Document not initialized"
  ∧ IndentLineCall indentImpl none [.vnum 0] = .err "Document not initialized"
  ∧ IndentLinesCall indentImpl none [.vnum 0, .vnum 0]
      = .err "Document not initialized"
  ∧ GetLineCountCall none = .ok 0
  ∧ GetLengthCall none = .ok 0
  ∧ IsModifiedCall none = .ok false
  ∧ GetModeCall none = .ok ""
  ∧ GetModesCall availableModes none = .ok []
  ∧ GetUrlCall none = .ok ""
  ∧ UndoCall undoImpl none = none
  ∧ RedoCall redoImpl none = none :=
  ⟨rfl, rfl, rfl, rfl, rfl, rfl, rfl, rfl, rfl, rfl, rfl, rfl, rfl, rfl, rfl,
   rfl, rfl, rfl, rfl, rfl, rfl, rfl, rfl, rfl, rfl⟩

/-- C5 counterexample: `getLine(5)` on an initialized single-line
document returns the value `ok ""` — it does not fail — refuting the
claim that out-of-range indices are rejected with an error. -/
theorem claim5_counterexample :
    GetLineCall (some ⟨["abc".toList], false, "", ""⟩) [NValue.vnum 5] = .ok "" := by
  decide

/-- C5 amended: for every initialized document and every integer `n`
outside `[0, lineCount)`, `getLine(n)` returns the empty string (the
lenient KTextEditor behaviour) instead of failing, and — being a pure
query — leaves the buffer untouched. -/
theorem claim5_getLine_lenient (st : DocState) (n : Int)
    (h : n < 0 ∨ (st.lines.length : Int) ≤ n) :
    GetLineCall (some st) [NValue.vnum n] = .ok "" := by
  have hstep : GetLineCall (some st) [NValue.vnum n]
      = .ok (String.mk (ktLine st.lines n)) := rfl
  rw [hstep]
  unfold ktLine
  rw [if_neg (by omega)]

/-- Witness for C5: line 5 of a one-line document. -/
theorem claim5_witness :
    GetLineCall (some ⟨["ab".toList], false, "", ""⟩) [NValue.vnum 5] = .ok "" :=
  claim5_getLine_lenient ⟨["ab".toList], false, "", ""⟩ 5 (by decide)

theorem claim6_replaceAll_ignores_options
    (rx : Bool → List Char → List Char → List ((Nat × Nat) × List Char))
    (st : DocState) (pat repl : String) (o1 o2 : NValue) :
    ReplaceAllCall rx (some st) [.vstr pat, .vstr repl, o1]
      = ReplaceAllCall rx (some st) [.vstr pat, .vstr repl, o2]
  ∧ parseSearchOptions (some (.vstr repl)) = ⟨false, false, false⟩ :=
  ⟨rfl, rfl⟩

/-- C7 counterexample: `setIndentation(0, 2)` on the all-whitespace line
" " yields three spaces, not the claimed exactly-two-space line: the
source's textStart loop leaves `textStart = 0` when the line has no
non-whitespace character, so the old leading whitespace is kept after
the new indent. -/
theorem claim7_counterexample :
    SetIndentation [" ".toList] 0 2 = ["   ".toList] ∧
      ("   ".toList : List Char) ≠ List.replicate 2 ' ' := by
  decide

/-- C7 amended: `setIndentation(line, width)` silently no-ops
out-of-range; on a line containing a non-whitespace character it
replaces the leading whitespace run with exactly `width` spaces and
preserves the rest of the line (concretely "\t  x" with width 2 becomes
"  x"), and every other line is untouched (the buffer apart from the
addressed line is unchanged); but on a nonempty all-whitespace line the
new spaces are prepended and the whole old line is kept. -/
theorem claim7_setIndentation :
    (SetIndentation ["\t  x".toList] 0 2 = ["  x".toList])
  ∧ (∀ (buf : Buffer) (line spaces : Int),
      (line < 0 ∨ (buf.length : Int) ≤ line) → SetIndentation buf line spaces = buf)
  ∧ (∀ (buf : Buffer) (line spaces : Int) (ws rest : List Char) (c : Char),
      0 ≤ line → line < (buf.length : Int) →
      buf.getD line.toNat [] = ws ++ c :: rest →
      (∀ d ∈ ws, d.isWhitespace = true) → c.isWhitespace = false →
      SetIndentation buf line spaces =
        buf.set line.toNat (List.replicate spaces.toNat ' ' ++ c :: rest))
  ∧ (∀ (buf : Buffer) (line spaces : Int),
      0 ≤ line → line < (buf.length : Int) →
      (∀ d ∈ buf.getD line.toNat [], d.isWhitespace = true) →
      SetIndentation buf line spaces =
        buf.set line.toNat
          (List.replicate spaces.toNat ' ' ++ buf.getD line.toNat [])) := by
  refine ⟨by decide, ?_, ?_, ?_⟩
  · intro buf line spaces h
    unfold SetIndentation
    rw [if_pos h]
  · intro buf line spaces ws rest c h0 h1 hdec hws hc
    rw [setIndentation_in_range spaces h0 h1, hdec]
    unfold textStart
    rw [firstNonWs_decomposed hws hc]
    simp only [Option.getD_some]
    rw [List.drop_left]
  · intro buf line spaces h0 h1 hws
    rw [setIndentation_in_range spaces h0 h1]
    unfold textStart
    rw [firstNonWs_all_ws hws]
    simp only [Option.getD_none, List.drop_zero]

/-- Witness for C7: replacing the leading space of " a" with three
spaces. -/
theorem claim7_witness :
    SetIndentation [" a".toList] 0 3
      = [" a".toList].set 0 (List.replicate 3 ' ' ++ 'a' :: []) :=
  claim7_setIndentation.2.2.1 [" a".toList] 0 3 [' '] [] 'a'
    (by decide) (by decide) (by decide) (by decide) (by decide)

/-- C8: `getIndentation(line)` counts the line's leading run of spaces
and tabs with space = 1 and tab = 4, stops at the first other character,
returns 0 without failing for an out-of-range line, and on "\t  x"
returns 6. -/
theorem claim8_getIndentation :
    (∀ (buf : Buffer) (line : Int),
      (line < 0 ∨ (buf.length : Int) ≤ line) → GetIndentation buf line = 0)
  ∧ (∀ (buf : Buffer) (line : Int) (ind rest : List Char),
      0 ≤ line → line < (buf.length : Int) →
      buf.getD line.toNat [] = ind ++ rest →
      (∀ c ∈ ind, c = ' ' ∨ c = '\t') →
      (∀ c, rest.head? = some c → c ≠ ' ' ∧ c ≠ '\t') →
      GetIndentation buf line = ind.count ' ' + 4 * ind.count '\t')
  ∧ GetIndentation ["\t  x".toList] 0 = 6 := by
  refine ⟨?_, ?_, by decide⟩
  · intro buf line h
    unfold GetIndentation
    rw [if_pos h]
  · intro buf line ind rest h0 h1 hdec hind hrest
    unfold GetIndentation
    rw [if_neg (by omega), hdec]
    exact countIndent_decompose hind hrest

/-- Witness for C8: out-of-range returns 0; "  x" has indentation 2. -/
theorem claim8_witness :
    GetIndentation [] 5 = 0 ∧ GetIndentation ["  x".toList] 0 = 2 := by
  constructor
  · exact claim8_getIndentation.1 [] 5 (by decide)
  · have h := claim8_getIndentation.2.1 ["  x".toList] 0 "  ".toList "x".toList
      (by decide) (by decide) (by decide) (by decide)
      (by
        intro c hc
        have h2 : some 'x' = some c := hc
        injection h2 with h3
        subst h3
        decide)
    rw [h]
    decide

/-- C9: `getFoldingRegions` scans only lines below
`min(lineCount, 50000)`; a region is emitted for a line exactly when the
line is visible and the engine reports a valid region at `(line, 0)`
whose start line equals that line; consequently the emitted start lines
are strictly increasing (no region is emitted twice) and every emitted
start line lies below the scan bound. -/
theorem claim9_getFoldingRegions (visible : Nat → Bool)
    (foldAt : Nat → Nat → Option (Nat × Nat)) (lineCount : Nat) :
    (∀ reg ∈ getFoldingRegions visible foldAt lineCount,
      reg.startLine < min lineCount 50000)
  ∧ (getFoldingRegions visible foldAt lineCount).Pairwise
      (fun a b => a.startLine < b.startLine)
  ∧ (∀ reg, reg ∈ getFoldingRegions visible foldAt lineCount ↔
      ∃ line, line < min lineCount 50000 ∧ visible line = true ∧
        ∃ e, foldAt line 0 = some (line, e) ∧ reg = ⟨line, e, "region"⟩) := by
  refine ⟨?_, ?_, fun reg => getFoldingRegions_mem⟩
  · intro reg hreg
    obtain ⟨line, hline, -, e, -, rfl⟩ := getFoldingRegions_mem.mp hreg
    exact hline
  · unfold getFoldingRegions
    apply pairwise_filterMap_of (foldRegionOfLine visible foldAt)
    · intro a a' b b' haa' hb hb'
      rw [foldRegionOfLine_startLine hb, foldRegionOfLine_startLine hb']
      exact haa'
    · exact List.pairwise_lt_range _

/-- Witness for C9: a two-line document whose engine reports one region
starting at line 0. -/
theorem claim9_witness :
    (FoldRegion.mk 0 1 "region").startLine < min 2 50000 :=
  (claim9_getFoldingRegions (fun _ => true)
    (fun l _ => if l = 0 then some (0, 1) else none) 2).1
    ⟨0, 1, "region"⟩ (by decide)

/-- C10: for literal search without whole-words, the scan resumes one
character after each accepted match, so every occurrence — including
overlapping ones — is reported: membership in the result is exactly
occurrence; concretely "aa" in "aaa" matches at columns 0 and 1. -/
theorem claim10_search_overlap :
    (∀ (cs : Bool) (pat s : List Char) (p : Nat),
      p ∈ searchLine cs false pat s ↔ occursAt cs pat s p = true)
  ∧ searchLiteral false false "aa".toList ["aaa".toList]
      = [⟨0, 0, 2, "aa".toList⟩, ⟨0, 1, 2, "aa".toList⟩] := by
  constructor
  · intro cs pat s p
    rw [searchLine_mem]
    constructor
    · rintro ⟨h1, -⟩
      exact h1
    · intro h1
      exact ⟨h1, fun hff => absurd hff (by decide)⟩
  · decide
